import Mathlib

/-!
Verification development for the ScreenAI repository.

JavaScript strings are modelled as `List Char` (`Str`), so that the
line-splitting performed by the streaming decoders (`buffer.split('\n')`)
can be reasoned about structurally.  Byte chunks delivered by
`reader.read()` are modelled post-`TextDecoder`, i.e. as already decoded
text; `TextDecoder` with `stream:true` is the identity on decoded text.
JSON parsing (`JSON.parse` followed by a vendor-specific field path,
wrapped in `try {} catch {}`) is abstracted as a parameter
`extract : Str → Option Str` (`none` models both a parse failure and a
missing/empty field path); all universally-quantified theorems below hold
for every such parameter, hence for the real JSON semantics.
Numbers (canvas coordinates, stroke widths) are modelled as `ℚ`.
-/

/-- JavaScript string, modelled as a list of characters. -/
abbrev Str : Type := List Char

/-- Whitespace test used by `String.prototype.trim` (main cases). -/
def isWS (c : Char) : Bool := c == ' ' || c == '\n' || c == '\t' || c == '\r'

/-- `s.trim()` — strip whitespace from both ends. -/
def trimJS (s : Str) : Str := ((s.dropWhile isWS).reverse.dropWhile isWS).reverse

/-!
## Streaming decoder (src/src/connectors/index.ts)

All connectors share the same chunk loop:

    buffer += decoder.decode(value, { stream: true });
    const lines = buffer.split('\n');
    buffer = lines.pop() || '';
    for (const line of lines) ...

`splitBuf s` returns the complete lines of `s` together with the trailing
incomplete line (exactly `lines`/`buffer` after `split`/`pop`).
-/

/-- `split('\n')` followed by `pop`: complete lines plus trailing buffer. -/
def splitBuf : Str → List Str × Str
  | [] => ([], [])
  | c :: rest =>
    let r := splitBuf rest
    if c = '\n' then ([] :: r.1, r.2)
    else
      match r.1 with
      | [] => ([], c :: r.2)
      | l :: ls => ((c :: l) :: ls, r.2)

/-- Accumulator of a streaming run: the `full` string being accumulated and
the `(chunk, done)` invocations of the `onStream` callback so far. -/
structure SSEAcc where
  full : Str
  calls : List (Str × Bool)
deriving DecidableEq

/-- The `while (true) { reader.read() ... }` loop of the SSE handlers:
feed each decoded chunk through the buffer, process complete lines with
`step`, keep the trailing incomplete line for the next read. -/
def feedChunks (step : SSEAcc → Str → SSEAcc) : SSEAcc → Str → List Str → SSEAcc × Str
  | acc, buffer, [] => (acc, buffer)
  | acc, buffer, c :: cs =>
    let r := splitBuf (buffer ++ c)
    feedChunks step (r.1.foldl step acc) r.2 cs

/-- A response body as observed through `reader.read()`: the successfully
delivered chunks, and `readErr = some m` when the next read rejects with
message `m` (a mid-stream transport failure). -/
structure BodyStream where
  chunks : List Str
  readErr : Option Str
deriving DecidableEq

/-- `data: ` — the SSE payload marker tested by `line.startsWith('data: ')`. -/
def dataPrefix : Str := "data: ".data

/-- `[DONE]` — the OpenAI-style stream terminator (also tested by Claude's
handler, where it never occurs). -/
def doneMarker : Str := "[DONE]".data

/-- The body of `ClaudeConnector.handleSSE` / `OpenAIConnector.handleSSE` /
`MistralConnector.send` / `GrokConnector.handleSSE` (the four are
line-for-line identical up to the JSON delta path, abstracted as
`extract`): process the chunks, then fire the terminal callback
`onStream('', true)` and resolve with the accumulated text — unless a
read rejected, in which case the error propagates and no terminal
callback fires. -/
def sseHandle (step : SSEAcc → Str → SSEAcc) (b : BodyStream) :
    List (Str × Bool) × Except Str Str :=
  let acc := (feedChunks step ⟨[], []⟩ [] b.chunks).1
  match b.readErr with
  | some m => (acc.calls, Except.error m)
  | none => (acc.calls ++ [([], true)], Except.ok acc.full)

/-- Per-line processing shared by Claude/OpenAI/Mistral/Grok:

    if (!line.startsWith('data: ')) continue;
    const data = line.slice(6).trim();
    if (data === '[DONE]') continue;
    try { const event = JSON.parse(data);
          if (<delta path truthy>) { full += delta; onStream(delta, false); } } catch {}

`extract` abstracts `JSON.parse` plus the vendor delta path; the explicit
emptiness test models JavaScript string truthiness. -/
def dataLine (extract : Str → Option Str) (acc : SSEAcc) (line : Str) : SSEAcc :=
  if dataPrefix.isPrefixOf line then
    let payload := trimJS (line.drop 6)
    if payload = doneMarker then acc
    else
      match extract payload with
      | some t => if t = [] then acc else ⟨acc.full ++ t, acc.calls ++ [(t, false)]⟩
      | none => acc
  else acc

/-- Per-line processing of `GeminiConnector.send`: same as `dataLine` but
with no `trim()` and no `[DONE]` test (`JSON.parse(line.slice(6))`). -/
def geminiLine (extract : Str → Option Str) (acc : SSEAcc) (line : Str) : SSEAcc :=
  if dataPrefix.isPrefixOf line then
    match extract (line.drop 6) with
    | some t => if t = [] then acc else ⟨acc.full ++ t, acc.calls ++ [(t, false)]⟩
    | none => acc
  else acc

/-- One parsed line of the Ollama line-delimited JSON protocol:
`content` models `event.message?.content` (a string field or absent) and
`done` the truthiness of `event.done`; a `JSON.parse` failure is the same
as `⟨none, false⟩` (the `catch {}` skips the line). -/
structure OllamaEvent where
  content : Option Str
  done : Bool

/-- The inner `for (const line of lines)` loop of `OllamaConnector.send`:
blank lines are skipped, a `done` event fires the terminal callback and
returns immediately (the `Bool` result records that early return). -/
def ollamaLines (oparse : Str → OllamaEvent) : SSEAcc → List Str → SSEAcc × Bool
  | acc, [] => (acc, false)
  | acc, line :: rest =>
    if trimJS line = [] then ollamaLines oparse acc rest
    else
      let ev := oparse line
      let acc1 := match ev.content with
        | some t => if t = [] then acc else ⟨acc.full ++ t, acc.calls ++ [(t, false)]⟩
        | none => acc
      if ev.done then (⟨acc1.full, acc1.calls ++ [([], true)]⟩, true)
      else ollamaLines oparse acc1 rest

/-- The read loop of `OllamaConnector.send`, with the early `return full`
on a `done` event aborting the remaining reads. -/
def ollamaFeed (oparse : Str → OllamaEvent) : SSEAcc → Str → List Str → SSEAcc × Bool
  | acc, _, [] => (acc, false)
  | acc, buffer, c :: cs =>
    let r := splitBuf (buffer ++ c)
    let s := ollamaLines oparse acc r.1
    if s.2 then (s.1, true)
    else ollamaFeed oparse s.1 r.2 cs

/-- `OllamaConnector.send` response handling: on early `done` return the
accumulated text; otherwise at stream end fire the terminal callback —
unless a read rejected. -/
def ollamaHandle (oparse : Str → OllamaEvent) (b : BodyStream) :
    List (Str × Bool) × Except Str Str :=
  let s := ollamaFeed oparse ⟨[], []⟩ [] b.chunks
  if s.2 then (s.1.calls, Except.ok s.1.full)
  else
    match b.readErr with
    | some m => (s.1.calls, Except.error m)
    | none => (s.1.calls ++ [([], true)], Except.ok s.1.full)

/-- `throw new Error('No response body')` of the SSE handlers. -/
def noBodyErr : Str := "No response body".data

/-- Outcome of `fetch(...)`: either the promise rejects (network failure)
or an `HttpResponse` arrives.  Note that `fetch` resolves, it does not
reject, on non-2xx statuses. -/
structure HttpResponse where
  status : Nat
  body : Option BodyStream
deriving DecidableEq

inductive FetchResult where
  | netErr (m : Str)
  | resp (r : HttpResponse)
deriving DecidableEq

/-- `ClaudeConnector.send` after the request is issued: a rejected fetch
propagates; a missing body throws `No response body`; otherwise the body
is streamed through `handleSSE`.  The response `status` is never
inspected (`response.ok` is not checked anywhere in the connector).
Returns the callback trace together with the settled outcome. -/
def claudeSend (extract : Str → Option Str) (fr : FetchResult) :
    List (Str × Bool) × Except Str Str :=
  match fr with
  | FetchResult.netErr m => ([], Except.error m)
  | FetchResult.resp r =>
    match r.body with
    | none => ([], Except.error noBodyErr)
    | some b => sseHandle (dataLine extract) b

/-- Table-driven instance of the abstract JSON extraction, used to build
concrete witnesses: maps a payload string to its delta text. -/
def extractTable (tbl : List (Str × Str)) (s : Str) : Option Str :=
  (tbl.find? (fun p => p.1 == s)).map (fun p => p.2)

/-!
## Data model (src/src/types.ts) and conversation store
(`conversationStore` in src/src/storage.ts)
-/

inductive Role where
  | user
  | assistant
deriving DecidableEq

inductive AIProviderType where
  | claude
  | openai
  | gemini
  | mistral
  | grok
  | ollama
deriving DecidableEq

/-- `AIProviderConfig` from the types module. -/
structure AIProviderConfig where
  type : AIProviderType
  label : Str
  apiKey : Str
  model : Str
  baseUrl : Option Str
  enabled : Bool
deriving DecidableEq

/-- A point in canvas-pixel coordinates. -/
structure Pt where
  x : ℚ
  y : ℚ
deriving DecidableEq

/-- The `type` field of a drawn shape (`Annotation['type']`). -/
inductive AnnType where
  | arrow
  | rectangle
  | highlight
  | freehand
  | text
deriving DecidableEq

/-- The `Annotation` interface of the types module (source name
`Annotation`): one drawn shape. -/
structure Annot where
  type : AnnType
  points : List Pt
  color : Str
  lineWidth : ℚ
  text : Option Str
deriving DecidableEq

/-- The `Screenshot` interface (the optional `region` field, unused by the
modelled flows, is omitted). -/
structure Screenshot where
  dataUrl : Str
  annotations : List Annot
  annotatedDataUrl : Option Str
  timestamp : Nat
deriving DecidableEq

/-- The `Message` interface. -/
structure Message where
  id : Str
  role : Role
  content : Str
  screenshot : Option Screenshot
  timestamp : Nat
  provider : Option AIProviderType
  model : Option Str
deriving DecidableEq

/-- The `Conversation` interface. -/
structure Conversation where
  id : Str
  title : Str
  messages : List Message
  provider : AIProviderType
  model : Str
  projectId : Option Str
  createdAt : Nat
  updatedAt : Nat
deriving DecidableEq

/-- The `…` appended by `conversationStore.addMessage` when truncating. -/
def ellipsisMark : Str := "…".data

/-- `conversationStore.addMessage`, conversation-value part:

    c.messages.push(msg);
    c.updatedAt = Date.now();
    if (c.messages.filter(m => m.role === 'user').length === 1
        && msg.role === 'user' && msg.content) {
      c.title = msg.content.slice(0, 60) + (msg.content.length > 60 ? '…' : '');
    }

`now` stands for the `Date.now()` reading of this call. -/
def convAddMessage (c : Conversation) (msg : Message) (now : Nat) : Conversation :=
  let msgs := c.messages ++ [msg]
  let c1 := { c with messages := msgs, updatedAt := now }
  if (msgs.filter (fun m => m.role == Role.user)).length = 1 ∧
      msg.role = Role.user ∧ msg.content ≠ [] then
    { c1 with
      title := msg.content.take 60 ++
        (if 60 < msg.content.length then ellipsisMark else []) }
  else c1

/-- The conversations object store of the IndexedDB database
(key path `id`). -/
abbrev Store := List Conversation

/-- `conversationStore.get`. -/
def storeGet (s : Store) (id : Str) : Option Conversation :=
  s.find? (fun c => c.id == id)

/-- `db.put` on the conversations store: replace the record with the same
key, or insert. -/
def storePut (s : Store) (c : Conversation) : Store :=
  if s.any (fun d => d.id == c.id) then
    s.map (fun d => if d.id == c.id then c else d)
  else s ++ [c]

/-- `conversationStore.addMessage(id, msg)`: `none` models the
`Conversation not found` rejection. -/
def storeAddMessage (s : Store) (id : Str) (msg : Message) (now : Nat) :
    Option (Store × Conversation) :=
  (storeGet s id).map (fun c =>
    let c1 := convAddMessage c msg now
    (storePut s c1, c1))

/-!
## Annotation canvas (src/src/ui/overlay/annotation.ts)

The DOM-only parts (live preview via `getImageData`/`putImageData`,
cursor styles, the background `<img>` element) are not modelled; pointer
events are modelled post-`getCanvasCoords`, i.e. already mapped into
canvas-pixel coordinates (the display-to-native mapping reads
`getBoundingClientRect`, which is external).  All handlers are total
functions: no path raises.
-/

/-- `AnnotationTool`. -/
inductive Tool where
  | arrow
  | rectangle
  | highlight
  | freehand
  | text
  | pointer
deriving DecidableEq

/-- The cast `this.currentTool as Annotation['type']` performed at commit
time; the `pointer` case is unreachable there because the `mouseup`
handler returns early when the tool is `pointer`. -/
def Tool.toAnnType : Tool → AnnType
  | Tool.arrow => AnnType.arrow
  | Tool.rectangle => AnnType.rectangle
  | Tool.highlight => AnnType.highlight
  | Tool.freehand => AnnType.freehand
  | Tool.text => AnnType.text
  | Tool.pointer => AnnType.arrow

/-- Mutable fields of `AnnotationCanvas` relevant to the shape log. -/
structure CanvasState where
  annotations : List Annot
  currentTool : Tool
  currentColor : Str
  lineWidth : ℚ
  isDrawing : Bool
  startX : ℚ
  startY : ℚ
  currentPoints : List Pt

/-- `'#FF3B30'`, the initial drawing color. -/
def defaultColor : Str := "#FF3B30".data

/-- Field initializers of `AnnotationCanvas`. -/
def initCanvas : CanvasState :=
  { annotations := []
    currentTool := Tool.pointer
    currentColor := defaultColor
    lineWidth := 3
    isDrawing := false
    startX := 0
    startY := 0
    currentPoints := [] }

/-- External stimuli of the canvas: the public setters, `undo`/`clear`,
and the pointer handlers bound in `bindEvents`.  A `mousedown` with the
text tool solicits text input (`promptText`); its outcome is part of the
event: `some s` models Enter/blur with input value `s`, `none` models
Escape. -/
inductive CEvent where
  | setTool (t : Tool)
  | setColor (c : Str)
  | setLineWidth (w : ℚ)
  | mousedown (p : Pt) (entry : Option Str)
  | mousemove (p : Pt)
  | mouseup (p : Pt)
  | undo
  | clear

/-- One canvas event, exactly as handled by the setters, `bindEvents` and
`promptText` (the `commit` closure pushes a text shape only when
`input.value.trim()` is truthy). -/
def canvasStep (st : CanvasState) (e : CEvent) : CanvasState :=
  match e with
  | CEvent.setTool t => { st with currentTool := t }
  | CEvent.setColor c => { st with currentColor := c }
  | CEvent.setLineWidth w => { st with lineWidth := w }
  | CEvent.mousedown p entry =>
    if st.currentTool = Tool.pointer then st
    else
      let st1 := { st with
        isDrawing := true, startX := p.x, startY := p.y, currentPoints := [p] }
      if st.currentTool = Tool.text then
        let st2 := { st1 with isDrawing := false }
        match entry with
        | some s =>
          if trimJS s ≠ [] then
            { st2 with annotations := st2.annotations ++
                [⟨AnnType.text, [p], st.currentColor, st.lineWidth, some (trimJS s)⟩] }
          else st2
        | none => st2
      else st1
  | CEvent.mousemove p =>
    if st.isDrawing = false ∨ st.currentTool = Tool.pointer then st
    else { st with currentPoints := st.currentPoints ++ [p] }
  | CEvent.mouseup p =>
    if st.isDrawing = false ∨ st.currentTool = Tool.pointer then st
    else
      { st with
        isDrawing := false
        currentPoints := st.currentPoints ++ [p]
        annotations := st.annotations ++
          [⟨st.currentTool.toAnnType, st.currentPoints ++ [p],
            st.currentColor, st.lineWidth, none⟩] }
  | CEvent.undo => { st with annotations := st.annotations.dropLast }
  | CEvent.clear => { st with annotations := [] }

/-- A whole interaction history applied to a fresh canvas. -/
def runCanvas (evs : List CEvent) : CanvasState :=
  evs.foldl canvasStep initCanvas

/-!
## Rendering (`AnnotationCanvas.drawShape` / `redraw`)

The 2D-context calls are reified as a list of `DrawCmd`; the host math
functions used by the arrow head (`Math.atan2`, `Math.cos`, `Math.sin`,
`Math.PI`) and the font-dependent `ctx.measureText(text).width` are
abstracted as parameters, so every theorem below holds for the real
floating-point implementations.
-/

/-- `Math.atan2` / `Math.cos` / `Math.sin` / `Math.PI` of the host. -/
structure Trig where
  atan2 : ℚ → ℚ → ℚ
  cos : ℚ → ℚ
  sin : ℚ → ℚ
  pi : ℚ

/-- One canvas-context call issued by `drawShape` / `redraw`. -/
inductive DrawCmd where
  | save
  | restore
  | setStroke (c : Str)
  | setFill (c : Str)
  | setLineWidth (w : ℚ)
  | setLineCapRound
  | setLineJoinRound
  | setAlpha (a : ℚ)
  | setFont (px : ℚ)
  | strokeRect (x y w h : ℚ)
  | fillRect (x y w h : ℚ)
  | beginPath
  | closePath
  | moveTo (x y : ℚ)
  | lineTo (x y : ℚ)
  | strokePath
  | fillPath
  | fillText (s : Str) (x y : ℚ)
  | clearRect (x y w h : ℚ)
  | drawImage (x y w h : ℚ)
deriving DecidableEq

/-- `points[0]` (shapes are drawn only when enough points exist, so the
default is never read on a drawn shape). -/
def headPt : List Pt → Pt
  | [] => ⟨0, 0⟩
  | p :: _ => p

/-- `points[points.length - 1]`. -/
def lastPt : List Pt → Pt
  | [] => ⟨0, 0⟩
  | [p] => p
  | _ :: ps => lastPt ps

/-- `'#000'` — the text background plate color. -/
def blackColor : Str := "#000".data

/-- `AnnotationCanvas.drawShape`.  Each `case` guards on the number of
points and `break`s (draws nothing) below the minimum; the `final`
argument of the source is accepted and, as in the source, never read. -/
def drawShape (trig : Trig) (measure : ℚ → Str → ℚ) (ty : AnnType)
    (points : List Pt) (color : Str) (lineWidth : ℚ) (_final : Bool)
    (txt : Option Str) : List DrawCmd :=
  let setup : List DrawCmd :=
    [DrawCmd.save, DrawCmd.setStroke color, DrawCmd.setFill color,
     DrawCmd.setLineWidth lineWidth, DrawCmd.setLineCapRound, DrawCmd.setLineJoinRound]
  let body : List DrawCmd :=
    match ty with
    | AnnType.rectangle =>
      if points.length < 2 then []
      else
        let s := headPt points
        let e := lastPt points
        [DrawCmd.strokeRect s.x s.y (e.x - s.x) (e.y - s.y)]
    | AnnType.highlight =>
      if points.length < 2 then []
      else
        let s := headPt points
        let e := lastPt points
        [DrawCmd.setAlpha (3 / 10),
         DrawCmd.fillRect s.x s.y (e.x - s.x) (e.y - s.y),
         DrawCmd.setAlpha 1]
    | AnnType.arrow =>
      if points.length < 2 then []
      else
        let s := headPt points
        let e := lastPt points
        let angle := trig.atan2 (e.y - s.y) (e.x - s.x)
        let headLen := 15 + lineWidth * 2
        [DrawCmd.beginPath, DrawCmd.moveTo s.x s.y, DrawCmd.lineTo e.x e.y,
         DrawCmd.strokePath,
         DrawCmd.beginPath, DrawCmd.moveTo e.x e.y,
         DrawCmd.lineTo (e.x - headLen * trig.cos (angle - trig.pi / 6))
           (e.y - headLen * trig.sin (angle - trig.pi / 6)),
         DrawCmd.lineTo (e.x - headLen * trig.cos (angle + trig.pi / 6))
           (e.y - headLen * trig.sin (angle + trig.pi / 6)),
         DrawCmd.closePath, DrawCmd.fillPath]
    | AnnType.freehand =>
      if points.length < 2 then []
      else
        let s := headPt points
        [DrawCmd.beginPath, DrawCmd.moveTo s.x s.y] ++
          points.tail.map (fun p => DrawCmd.lineTo p.x p.y) ++
          [DrawCmd.strokePath]
    | AnnType.text =>
      match txt with
      | none => []
      | some t =>
        if t = [] ∨ points.length < 1 then []
        else
          let s := headPt points
          let fontSize := 18 + lineWidth * 2
          [DrawCmd.setFont fontSize,
           DrawCmd.setAlpha (85 / 100), DrawCmd.setFill blackColor,
           DrawCmd.fillRect (s.x - 6) (s.y - fontSize - 6)
             (measure fontSize t + 12) (fontSize + 12),
           DrawCmd.setAlpha 1, DrawCmd.setFill color,
           DrawCmd.fillText t s.x s.y]
  setup ++ body ++ [DrawCmd.restore]

/-- `AnnotationCanvas.redraw` with a loaded background image of size
`w × h`: clear, draw the background, then every committed shape in commit
order. -/
def redrawModel (trig : Trig) (measure : ℚ → Str → ℚ) (w h : ℚ)
    (anns : List Annot) : List DrawCmd :=
  DrawCmd.clearRect 0 0 w h :: DrawCmd.drawImage 0 0 w h ::
    (anns.map (fun a =>
      drawShape trig measure a.type a.points a.color a.lineWidth true a.text)).flatten

/-- `AnnotationCanvas.undo` on the shape log (`annotations.pop()`). -/
def undoModel (anns : List Annot) : List Annot := anns.dropLast

/-!
## Array aliasing model for `getAnnotations`

`getAnnotations` returns `[...this.annotations]`.  To state what the
spread accomplishes we model JavaScript array references explicitly: a
heap is a list of array cells, a reference is an index, mutation writes a
cell in place.  The spread allocates a fresh cell holding a copy of the
contents. -/

/-- The array heap: cell `r` holds the contents of the array referenced
by `r`. -/
abbrev ArrHeap := List (List Annot)

def heapRead (h : ArrHeap) (r : Nat) : List Annot := h.getD r []

/-- In-place mutation of the array at `r` (any mutation: `push`,
`splice`, element assignment — the new contents are arbitrary). -/
def heapWrite (h : ArrHeap) (r : Nat) (v : List Annot) : ArrHeap := h.set r v

/-- Allocation of a fresh array. -/
def heapAlloc (h : ArrHeap) (v : List Annot) : ArrHeap × Nat := (h ++ [v], h.length)

/-- `AnnotationCanvas.getAnnotations`: `return [...this.annotations]` — a
fresh array whose contents copy the internal log at `annRef`. -/
def getAnnotationsH (h : ArrHeap) (annRef : Nat) : ArrHeap × Nat :=
  heapAlloc h (heapRead h annRef)

/-!
## Overlay turn loop (`ScreenAIOverlay.sendMessage`, part_006)

The DOM rendering (`renderMessages`, `updateSendButton`) is not modelled;
what is modelled is every store interaction, the decision to issue the
network call, and the conversation value held in `this.activeConvo`.
`connector.send` is abstracted by a `SendOutcome`: the sequence of
`onStream` invocations it performs, and whether its promise resolves or
rejects (with which message).  `Date.now()` readings within one turn are
collapsed to a single `now`; `generateId()` results are the parameters
`u1`/`u2`.
-/

/-- Observable effects of one turn, in order of occurrence. -/
inductive TurnEvent where
  | domError (m : Str)
  | storeAppend (cid : Str) (m : Message)
  | networkCall
  | exn (m : Str)
deriving DecidableEq

/-- Result of `sendMessage`: the store afterwards, `this.activeConvo`
afterwards, and the ordered effect trace. -/
structure TurnResult where
  store : Store
  convo : Option Conversation
  trace : List TurnEvent
deriving DecidableEq

/-- Outcome of the abstracted `connector.send`: `ok calls` — the callback
is invoked with each element of `calls` and the promise then resolves;
`err calls m` — the callback is invoked with each element of `calls` and
the promise then rejects with message `m` (the connectors reject only
before the terminal callback, so their `calls` contain no `done` entry,
but the model does not assume that). -/
inductive SendOutcome where
  | ok (calls : List (Str × Bool))
  | err (calls : List (Str × Bool)) (m : Str)

/-- Settings fields read by the overlay turn loop (the full `AppSettings`
also carries hotkeys, theme, language and the system prompt, none of
which affect the modelled effects). -/
structure AppSettings where
  defaultProvider : AIProviderType
  providers : AIProviderType → AIProviderConfig

/-- The annotation canvas as seen from the overlay: its committed log
(`getAnnotations()`) and its flattened output (`toDataUrl()`, an opaque
encoded raster). -/
structure CanvasView where
  annotations : List Annot
  dataUrl : Str

/-- Overlay fields read by `sendMessage`. -/
structure OverlayState where
  activeConvo : Option Conversation
  settings : Option AppSettings
  currentScreenshot : Str
  canvas : Option CanvasView

/-- `'API key missing. Configure it in settings.'` -/
def apiKeyMissingMsg : Str := "API key missing. Configure it in settings.".data

/-- `'Help me with what you see on screen.'` — the fallback content when
the composed text is empty. -/
def helpFallback : Str := "Help me with what you see on screen.".data

/-- `'❌ Error: '` prefix of the catch-path assistant message. -/
def errPrefix : Str := "❌ Error: ".data

/-- `'Could not reach the AI'` fallback when the thrown error has no
message. -/
def couldNotReach : Str := "Could not reach the AI".data

/-- Message of the `Conversation ${id} not found` rejection. -/
def convoNotFoundMsg (id : Str) : Str :=
  "Conversation ".data ++ id ++ " not found".data

/-- State threaded through the streaming callback: current store, the
conversation object held in `this.activeConvo`, whether the `aiMsg`
object is still the (aliased) last element of that conversation's message
array, the `aiMsg` object itself, and the store-append trace. -/
structure StreamState where
  store : Store
  view : Conversation
  aliasLive : Bool
  aiMsg : Message
  trace : List TurnEvent

/-- The `onStream` callback of `ScreenAIOverlay.sendMessage`, applied to
each invocation in order:

    aiMsg.content += chunk;   // visible through the aliased push
    if (done) { conversationStore.addMessage(activeConvo.id, aiMsg)
                  .then(updated => { activeConvo = updated; }); }

A failed store append inside the (unawaited) promise surfaces as an
unhandled rejection and leaves `activeConvo` untouched. -/
def runCalls (cid : Str) (now : Nat) : StreamState → List (Str × Bool) → StreamState
  | ss, [] => ss
  | ss, (chunk, done) :: rest =>
    let ai := { ss.aiMsg with content := ss.aiMsg.content ++ chunk }
    let view1 :=
      if ss.aliasLive then { ss.view with messages := ss.view.messages.dropLast ++ [ai] }
      else ss.view
    if done then
      match storeAddMessage ss.store cid ai now with
      | some su =>
        runCalls cid now
          { store := su.1
            view := su.2
            aliasLive := false
            aiMsg := ai
            trace := ss.trace ++ [TurnEvent.storeAppend cid ai] } rest
      | none =>
        runCalls cid now
          { ss with
            view := view1
            aiMsg := ai
            trace := ss.trace ++ [TurnEvent.exn (convoNotFoundMsg cid)] } rest
    else
      runCalls cid now { ss with view := view1, aiMsg := ai } rest

/-- `ScreenAIOverlay.sendMessage(text)` (part_006 lines 322–410).

Control flow, in source order: bail out if no active conversation or no
settings; resolve the provider config; if `!config.apiKey` and the
provider is not ollama, `showError(...)` (a DOM-only bubble) and return —
`config.enabled` is not consulted; otherwise build the screenshot and the
user message, persist the user message (`await addMessage` — outside the
`try`, so a missing conversation rejects the whole call), push an empty
assistant message onto the in-memory conversation, then issue the network
call; the callback streams into `aiMsg` and on `done` persists it; the
`catch` overwrites `aiMsg.content` with `❌ Error: ...` without any store
call. -/
def sendMessage (st : OverlayState) (store : Store) (text : Str)
    (u1 u2 : Str) (now : Nat) (outcome : SendOutcome) : TurnResult :=
  match st.activeConvo, st.settings with
  | some convo, some settings =>
    let provider := convo.provider
    let config := settings.providers provider
    if config.apiKey = [] ∧ provider ≠ AIProviderType.ollama then
      { store := store, convo := some convo,
        trace := [TurnEvent.domError apiKeyMissingMsg] }
    else
      let annotatedUrl :=
        match st.canvas with
        | some cv => if cv.dataUrl = [] then st.currentScreenshot else cv.dataUrl
        | none => st.currentScreenshot
      let shot : Screenshot :=
        { dataUrl := st.currentScreenshot
          annotations := match st.canvas with
            | some cv => cv.annotations
            | none => []
          annotatedDataUrl := some annotatedUrl
          timestamp := now }
      let userMsg : Message :=
        { id := u1, role := Role.user
          content := if text = [] then helpFallback else text
          screenshot := some shot, timestamp := now
          provider := some provider, model := some config.model }
      match storeAddMessage store convo.id userMsg now with
      | none =>
        { store := store, convo := some convo,
          trace := [TurnEvent.exn (convoNotFoundMsg convo.id)] }
      | some su =>
        let aiMsg : Message :=
          { id := u2, role := Role.assistant, content := []
            screenshot := none, timestamp := now
            provider := some provider, model := some config.model }
        let baseTrace := [TurnEvent.storeAppend convo.id userMsg, TurnEvent.networkCall]
        let ss0 : StreamState :=
          { store := su.1
            view := { su.2 with messages := su.2.messages ++ [aiMsg] }
            aliasLive := true, aiMsg := aiMsg, trace := [] }
        match outcome with
        | SendOutcome.ok calls =>
          let ss := runCalls convo.id now ss0 calls
          { store := ss.store, convo := some ss.view, trace := baseTrace ++ ss.trace }
        | SendOutcome.err calls m =>
          let ss := runCalls convo.id now ss0 calls
          let errAi := { ss.aiMsg with
            content := errPrefix ++ (if m = [] then couldNotReach else m) }
          let view1 :=
            if ss.aliasLive then
              { ss.view with messages := ss.view.messages.dropLast ++ [errAi] }
            else ss.view
          { store := ss.store, convo := some view1, trace := baseTrace ++ ss.trace }
  | _, _ => { store := store, convo := st.activeConvo, trace := [] }

/-!
## Statement vocabulary and concrete fixtures

`streamContract` states the uniform callback contract of §4.3 of the
spec; `AccOk` is the invariant of a partially-processed stream.  The
`demo*` constants are concrete inputs used only in witnesses and
counterexamples.
-/

/-- Invariant of an accumulator mid-stream: every callback so far was
non-final, and the accumulated text is the concatenation of the emitted
fragments in order. -/
def AccOk (acc : SSEAcc) : Prop :=
  acc.calls.all (fun p => !p.2) = true ∧
  acc.full = (acc.calls.map Prod.fst).flatten

/-- The callback contract of one completed `send`: the callback fired
with `isFinal = true` exactly once, that invocation was the last one and
carried the empty terminal fragment, and the promise resolved with the
concatenation of all non-final fragments in callback order. -/
def streamContract (r : List (Str × Bool) × Except Str Str) : Prop :=
  r.1.filter (fun p => p.2) = [([], true)] ∧
  r.1.getLast? = some ([], true) ∧
  r.2 = Except.ok ((r.1.filter (fun p => !p.2)).map Prod.fst).flatten

/-- Trivial interpretation of the host math functions, for witnesses. -/
def trigZero : Trig :=
  { atan2 := fun _ _ => 0, cos := fun _ => 0, sin := fun _ => 0, pi := 0 }

/-- Trivial text-measure interpretation, for witnesses. -/
def measureZero : ℚ → Str → ℚ := fun _ _ => 0

/-- A 401 error body frame, as Anthropic returns it (no `data: ` lines). -/
def errBodyLine : Str :=
  "\x7b\"error\":\x7b\"type\":\"authentication_error\"\x7d\x7d".data

/-- A non-2xx response carrying that error body. -/
def non2xxResp : FetchResult :=
  FetchResult.resp { status := 401, body := some { chunks := [errBodyLine], readErr := none } }

/-- `{"delta":"hi"}` — payload of the split-frame example of §8. -/
def deltaPayload : Str := "\x7b\"delta\":\"hi\"\x7d".data

def demoHi : Str := "hi".data

/-- First half of the split frame `data: {"del`. -/
def chunkA : Str := "data: \x7b\"del".data

/-- Second half `ta":"hi"}\n\n`. -/
def chunkB : Str := "ta\":\"hi\"\x7d\n\n".data

/-- The same frame whole. -/
def chunkWhole : Str := "data: \x7b\"delta\":\"hi\"\x7d\n\n".data

def demoText : Str := "hi there".data

def demoU1 : Str := "u1".data

def demoU2 : Str := "u2".data

def demoHel : Str := "Hel".data

def netDown : Str := "network down".data

/-- A provider config with a key present but `enabled = false`. -/
def demoCfg : AIProviderConfig :=
  { type := AIProviderType.claude, label := "Claude".data, apiKey := "k".data,
    model := "m".data, baseUrl := none, enabled := false }

/-- A provider config with no API key (and `enabled = true`). -/
def demoCfgNoKey : AIProviderConfig :=
  { demoCfg with apiKey := [], enabled := true }

def demoSettings : AppSettings :=
  { defaultProvider := AIProviderType.claude, providers := fun _ => demoCfg }

def demoSettingsNoKey : AppSettings :=
  { defaultProvider := AIProviderType.claude, providers := fun _ => demoCfgNoKey }

def demoConvo : Conversation :=
  { id := "c1".data, title := "New conversation".data, messages := []
    provider := AIProviderType.claude, model := "m".data, projectId := none
    createdAt := 0, updatedAt := 0 }

def demoStore : Store := [demoConvo]

def demoState : OverlayState :=
  { activeConvo := some demoConvo, settings := some demoSettings
    currentScreenshot := "img".data, canvas := none }

def demoStateNoKey : OverlayState :=
  { demoState with settings := some demoSettingsNoKey }

def demoUserMsg : Message :=
  { id := demoU1, role := Role.user, content := demoText, screenshot := none
    timestamp := 1, provider := none, model := none }

def demoAnn : Annot :=
  { type := AnnType.rectangle, points := [⟨0, 0⟩, ⟨2, 3⟩], color := defaultColor
    lineWidth := 3, text := none }

def demoHeap : ArrHeap := [[demoAnn]]

def demoCanvasEvs : List CEvent :=
  [CEvent.setTool Tool.arrow, CEvent.mousedown ⟨1, 2⟩ none]

def demoTextState : CanvasState := { initCanvas with currentTool := Tool.text }

def spaceStr : Str := " ".data

def demoMid : List Pt := [⟨5, 5⟩]

/-!
## Lemmas about the chunk/buffer machinery
-/

theorem splitBuf_snd_no_newline : ∀ s : Str, '\n' ∉ (splitBuf s).2 := by
  intro s
  induction s with
  | nil => simp [splitBuf]
  | cons c rest ih =>
    by_cases hc : c = '\n'
    · simp [splitBuf, hc]
      exact ih
    · simp only [splitBuf, if_neg hc]
      cases h : (splitBuf rest).1 with
      | nil =>
        simp only [h, List.mem_cons]
        rintro (rfl | hmem)
        · exact hc rfl
        · exact ih hmem
      | cons l ls => simpa [h] using ih

theorem splitBuf_no_newline : ∀ s : Str, '\n' ∉ s → splitBuf s = ([], s) := by
  intro s
  induction s with
  | nil => intro _; rfl
  | cons c rest ih =>
    intro h
    have hc : c ≠ '\n' := fun hcc => h (by simp [hcc])
    have hr : '\n' ∉ rest := fun hm => h (List.mem_cons_of_mem _ hm)
    simp only [splitBuf, if_neg hc, ih hr]

theorem splitBuf_append : ∀ a b : Str,
    splitBuf (a ++ b) =
      ((splitBuf a).1 ++ (splitBuf ((splitBuf a).2 ++ b)).1,
       (splitBuf ((splitBuf a).2 ++ b)).2) := by
  intro a
  induction a with
  | nil => intro b; simp [splitBuf]
  | cons c a' ih =>
    intro b
    by_cases hc : c = '\n'
    · subst hc
      simp [List.cons_append, splitBuf, ih b]
    · cases h1 : (splitBuf a').1 with
      | cons l ls =>
        simp [List.cons_append, splitBuf, if_neg hc, ih b, h1]
      | nil =>
        cases h2 : (splitBuf ((splitBuf a').2 ++ b)).1 with
        | nil =>
          simp [List.cons_append, splitBuf, if_neg hc, ih b, h1, h2]
        | cons u us =>
          simp [List.cons_append, splitBuf, if_neg hc, ih b, h1, h2]

theorem feedChunks_eq : ∀ (cs : List Str) (step : SSEAcc → Str → SSEAcc)
    (acc : SSEAcc) (buffer : Str), '\n' ∉ buffer →
    feedChunks step acc buffer cs =
      ((splitBuf (buffer ++ cs.flatten)).1.foldl step acc,
       (splitBuf (buffer ++ cs.flatten)).2) := by
  intro cs
  induction cs with
  | nil =>
    intro step acc buffer hb
    simp [feedChunks, splitBuf_no_newline buffer hb]
  | cons c cs' ih =>
    intro step acc buffer hb
    have hbc : buffer ++ (c :: cs').flatten = (buffer ++ c) ++ cs'.flatten := by
      simp [List.flatten_cons, List.append_assoc]
    rw [hbc, splitBuf_append (buffer ++ c) cs'.flatten]
    simp only [feedChunks]
    rw [ih step _ _ (splitBuf_snd_no_newline (buffer ++ c))]
    simp [List.foldl_append]

theorem AccOk_init : AccOk ⟨[], []⟩ := by constructor <;> rfl

theorem AccOk_push (acc : SSEAcc) (t : Str) (h : AccOk acc) :
    AccOk ⟨acc.full ++ t, acc.calls ++ [(t, false)]⟩ := by
  obtain ⟨h1, h2⟩ := h
  constructor
  · simp [List.all_append, h1]
  · simp [h2]

theorem dataLine_AccOk (e : Str → Option Str) (acc : SSEAcc) (line : Str)
    (h : AccOk acc) : AccOk (dataLine e acc line) := by
  unfold dataLine
  split
  · dsimp only
    split
    · exact h
    · cases he : e (trimJS (line.drop 6)) with
      | some t =>
        simp only
        split
        · exact h
        · exact AccOk_push acc t h
      | none => exact h
  · exact h

theorem geminiLine_AccOk (e : Str → Option Str) (acc : SSEAcc) (line : Str)
    (h : AccOk acc) : AccOk (geminiLine e acc line) := by
  unfold geminiLine
  split
  · cases he : e (line.drop 6) with
    | some t =>
      simp only
      split
      · exact h
      · exact AccOk_push acc t h
    | none => exact h
  · exact h

theorem foldl_AccOk (step : SSEAcc → Str → SSEAcc)
    (hstep : ∀ acc l, AccOk acc → AccOk (step acc l)) :
    ∀ (ls : List Str) (acc : SSEAcc), AccOk acc → AccOk (ls.foldl step acc) := by
  intro ls
  induction ls with
  | nil => intro acc h; exact h
  | cons l ls ih => intro acc h; exact ih _ (hstep acc l h)

theorem feedChunks_AccOk (step : SSEAcc → Str → SSEAcc)
    (hstep : ∀ acc l, AccOk acc → AccOk (step acc l)) :
    ∀ (cs : List Str) (acc : SSEAcc) (buffer : Str),
      AccOk acc → AccOk (feedChunks step acc buffer cs).1 := by
  intro cs
  induction cs with
  | nil => intro acc buffer h; exact h
  | cons c cs ih =>
    intro acc buffer h
    exact ih _ _ (foldl_AccOk step hstep _ acc h)

theorem contract_of_AccOk (acc : SSEAcc) (h : AccOk acc) :
    streamContract (acc.calls ++ [([], true)], Except.ok acc.full) := by
  obtain ⟨h1, h2⟩ := h
  have hall : ∀ p ∈ acc.calls, p.2 = false := by
    intro p hp
    have := (List.all_eq_true.mp h1) p hp
    simpa using this
  refine ⟨?_, ?_, ?_⟩
  · rw [List.filter_append]
    have : acc.calls.filter (fun p => p.2) = [] := by
      rw [List.filter_eq_nil_iff]
      intro p hp
      simp [hall p hp]
    simp [this]
  · simp [List.getLast?_concat]
  · rw [List.filter_append]
    have : acc.calls.filter (fun p => !p.2) = acc.calls := by
      rw [List.filter_eq_self]
      intro p hp
      simp [hall p hp]
    simp [this, h2]

theorem ollamaLines_cases (oparse : Str → OllamaEvent) :
    ∀ (ls : List Str) (acc : SSEAcc), AccOk acc →
      ((ollamaLines oparse acc ls).2 = false ∧ AccOk (ollamaLines oparse acc ls).1) ∨
      ((ollamaLines oparse acc ls).2 = true ∧
        ∃ base, AccOk base ∧
          (ollamaLines oparse acc ls).1 = ⟨base.full, base.calls ++ [([], true)]⟩) := by
  intro ls
  induction ls with
  | nil => intro acc h; exact Or.inl ⟨rfl, h⟩
  | cons line rest ih =>
    intro acc h
    by_cases hb : trimJS line = []
    · simpa [ollamaLines, hb] using ih acc h
    · have hacc1 : AccOk (match (oparse line).content with
        | some t => if t = [] then acc
            else ⟨acc.full ++ t, acc.calls ++ [(t, false)]⟩
        | none => acc) := by
        cases hc : (oparse line).content with
        | some t =>
          simp only
          split
          · exact h
          · exact AccOk_push acc t h
        | none => exact h
      by_cases hd : (oparse line).done = true
      · refine Or.inr ?_
        simp only [ollamaLines, if_neg hb, hd, if_true]
        exact ⟨trivial, _, hacc1, rfl⟩
      · have hd' : (oparse line).done = false := by
          cases hdd : (oparse line).done
          · rfl
          · exact absurd hdd hd
        simpa [ollamaLines, hb, hd'] using ih _ hacc1

theorem ollamaFeed_cases (oparse : Str → OllamaEvent) :
    ∀ (cs : List Str) (acc : SSEAcc) (buffer : Str), AccOk acc →
      ((ollamaFeed oparse acc buffer cs).2 = false ∧
        AccOk (ollamaFeed oparse acc buffer cs).1) ∨
      ((ollamaFeed oparse acc buffer cs).2 = true ∧
        ∃ base, AccOk base ∧
          (ollamaFeed oparse acc buffer cs).1 = ⟨base.full, base.calls ++ [([], true)]⟩) := by
  intro cs
  induction cs with
  | nil => intro acc buffer h; exact Or.inl ⟨rfl, h⟩
  | cons c cs ih =>
    intro acc buffer h
    rcases ollamaLines_cases oparse (splitBuf (buffer ++ c)).1 acc h with
      ⟨hf, hacc⟩ | ⟨ht, base, hbase, heq⟩
    · simpa [ollamaFeed, hf] using ih _ _ hacc
    · refine Or.inr ?_
      simp only [ollamaFeed, ht, if_true]
      exact ⟨trivial, base, hbase, heq⟩

/-- C5: For every connector and every stream of frames, the chunk
callback is invoked with `isFinal = true` exactly once, that final
invocation is the last one and carries the terminal empty fragment, and
`send` resolves with the concatenation of all non-final `textFragment`
values in callback order.  Stated for the shared `data:`-line SSE handler
(Claude/OpenAI/Mistral/Grok), the Gemini variant, and the Ollama
line-delimited handler, for every JSON extraction and every chunk
sequence of a stream that completes without a read failure. -/
theorem connector_stream_contract :
    (∀ (extract : Str → Option Str) (cs : List Str),
      streamContract (sseHandle (dataLine extract) ⟨cs, none⟩)) ∧
    (∀ (extract : Str → Option Str) (cs : List Str),
      streamContract (sseHandle (geminiLine extract) ⟨cs, none⟩)) ∧
    (∀ (oparse : Str → OllamaEvent) (cs : List Str),
      streamContract (ollamaHandle oparse ⟨cs, none⟩)) := by
  refine ⟨?_, ?_, ?_⟩
  · intro extract cs
    exact contract_of_AccOk _
      (feedChunks_AccOk _ (dataLine_AccOk extract) cs ⟨[], []⟩ [] AccOk_init)
  · intro extract cs
    exact contract_of_AccOk _
      (feedChunks_AccOk _ (geminiLine_AccOk extract) cs ⟨[], []⟩ [] AccOk_init)
  · intro oparse cs
    rcases ollamaFeed_cases oparse cs ⟨[], []⟩ [] AccOk_init with
      ⟨hf, hacc⟩ | ⟨ht, base, hbase, heq⟩
    · simpa [ollamaHandle, hf] using contract_of_AccOk _ hacc
    · have : ollamaHandle oparse ⟨cs, none⟩ =
        (base.calls ++ [([], true)], Except.ok base.full) := by
        simp [ollamaHandle, ht, heq]
      rw [this]
      exact contract_of_AccOk base hbase

/-- C6: the streaming decoder buffers an incomplete trailing line and
prepends it to the next read, never dropping or double-processing it:
the callback trace and the settled result of the shared SSE handler
depend only on the concatenation of the delivered chunks (hence feeding
a frame split across two chunks yields the same final accumulated text
as feeding it whole). -/
theorem decoder_chunking_invariant :
    ∀ (extract : Str → Option Str) (b b' : BodyStream),
      b.chunks.flatten = b'.chunks.flatten → b.readErr = b'.readErr →
      sseHandle (dataLine extract) b = sseHandle (dataLine extract) b' := by
  intro extract b b' hj hr
  unfold sseHandle
  rw [feedChunks_eq b.chunks _ _ _ (by simp),
      feedChunks_eq b'.chunks _ _ _ (by simp), hj, hr]

theorem decoder_chunking_invariant_witness :
    ([chunkA, chunkB].flatten = [chunkWhole].flatten) ∧
    sseHandle (dataLine (extractTable [(deltaPayload, demoHi)]))
        ⟨[chunkA, chunkB], none⟩ =
      sseHandle (dataLine (extractTable [(deltaPayload, demoHi)]))
        ⟨[chunkWhole], none⟩ :=
  ⟨by decide,
   decoder_chunking_invariant (extractTable [(deltaPayload, demoHi)])
     ⟨[chunkA, chunkB], none⟩ ⟨[chunkWhole], none⟩ (by decide) rfl⟩

/-- C1 (counterexample): a non-2xx HTTP response — here a 401 whose body
is Anthropic's JSON error object, hence contains no `data: ` frames —
is not raised as an error by `ClaudeConnector.send`: the promise resolves
with the empty string, indistinguishable from a normal empty response. -/
theorem claude_send_non2xx_resolves_empty :
    (claudeSend (extractTable []) non2xxResp).2 = Except.ok [] ∧
    (claudeSend (extractTable []) non2xxResp).1 = [([], true)] := by
  constructor <;> rfl

/-- C1 (amended): `ClaudeConnector.send` raises an explicit error exactly
when the fetch itself rejects (network failure), the response has no
body, or a mid-stream read rejects; the HTTP status is never consulted,
so a non-2xx response with a readable body resolves normally (and
resolves with the empty string whenever the body carries no data
frames). -/
theorem claude_send_error_iff :
    ∀ (extract : Str → Option Str) (fr : FetchResult),
      (∃ m, (claudeSend extract fr).2 = Except.error m) ↔
        ((∃ m, fr = FetchResult.netErr m) ∨
         (∃ r, fr = FetchResult.resp r ∧ r.body = none) ∨
         (∃ r b, fr = FetchResult.resp r ∧ r.body = some b ∧ b.readErr ≠ none)) := by
  intro extract fr
  cases fr with
  | netErr m => simp [claudeSend]
  | resp r =>
    cases hb : r.body with
    | none => simp [claudeSend, hb]
    | some b =>
      cases he : b.readErr with
      | none => simp [claudeSend, sseHandle, hb, he]
      | some m => simp [claudeSend, sseHandle, hb, he]

/-!
## Conversation store (C8)
-/

/-- C8: appending a message to a conversation sets `updatedAt` to the
append time and appends the message; the title is set — to the first
user-authored message text truncated to 60 characters with an ellipsis
marker when longer — exactly when the appended message is the first
user message and has non-empty text, and is never changed by any other
append (in particular never overwritten once a user message exists). -/
theorem addMessage_title_updatedAt :
    ∀ (c : Conversation) (msg : Message) (now : Nat),
      ((convAddMessage c msg now).updatedAt = now) ∧
      ((convAddMessage c msg now).messages = c.messages ++ [msg]) ∧
      ((c.messages.filter (fun x => x.role == Role.user)).length = 0 →
        msg.role = Role.user → msg.content ≠ [] →
        (convAddMessage c msg now).title =
          msg.content.take 60 ++
            (if 60 < msg.content.length then ellipsisMark else [])) ∧
      ((c.messages.filter (fun x => x.role == Role.user)).length ≠ 0 →
        (convAddMessage c msg now).title = c.title) ∧
      (msg.role ≠ Role.user → (convAddMessage c msg now).title = c.title) := by
  intro c msg now
  refine ⟨?_, ?_, ?_, ?_, ?_⟩
  · unfold convAddMessage
    dsimp only
    split <;> rfl
  · unfold convAddMessage
    dsimp only
    split <;> rfl
  · intro h0 hrole hcont
    have hc : ((c.messages ++ [msg]).filter
        (fun m => m.role == Role.user)).length = 1 ∧
        msg.role = Role.user ∧ msg.content ≠ [] := by
      refine ⟨?_, hrole, hcont⟩
      rw [List.filter_append, List.length_append, h0]
      simp [hrole]
    unfold convAddMessage
    dsimp only
    rw [if_pos hc]
  · intro h0
    have hc : ¬(((c.messages ++ [msg]).filter
        (fun m => m.role == Role.user)).length = 1 ∧
        msg.role = Role.user ∧ msg.content ≠ []) := by
      rintro ⟨h1, h2, _⟩
      rw [List.filter_append, List.length_append] at h1
      have hm : (List.filter (fun m => m.role == Role.user) [msg]).length = 1 := by
        simp [h2]
      omega
    unfold convAddMessage
    dsimp only
    rw [if_neg hc]
  · intro hrole
    have hc : ¬(((c.messages ++ [msg]).filter
        (fun m => m.role == Role.user)).length = 1 ∧
        msg.role = Role.user ∧ msg.content ≠ []) := by
      rintro ⟨_, h2, _⟩
      exact hrole h2
    unfold convAddMessage
    dsimp only
    rw [if_neg hc]

theorem addMessage_title_witness :
    ((convAddMessage demoConvo demoUserMsg 7).updatedAt = 7) ∧
    ((convAddMessage demoConvo demoUserMsg 7).title =
      demoUserMsg.content.take 60 ++
        (if 60 < demoUserMsg.content.length then ellipsisMark else [])) :=
  ⟨(addMessage_title_updatedAt demoConvo demoUserMsg 7).1,
   (addMessage_title_updatedAt demoConvo demoUserMsg 7).2.2.1 (by decide) rfl
     (by decide)⟩

/-!
## Rendering (C7)
-/

theorem lastPt_cons_append : ∀ (mid : List Pt) (p0 pl : Pt),
    lastPt (p0 :: (mid ++ [pl])) = pl := by
  intro mid
  induction mid with
  | nil => intro p0 pl; rfl
  | cons m mid ih =>
    intro p0 pl
    show lastPt (p0 :: m :: (mid ++ [pl])) = pl
    rw [show lastPt (p0 :: m :: (mid ++ [pl])) = lastPt (m :: (mid ++ [pl])) from rfl]
    exact ih m pl

/-- C7: for Arrow, Rectangle and Highlight shapes the rendered command
trace of `drawShape` depends only on the first and last point: inserting
any synthetic intermediate points leaves the output unchanged — for every
interpretation of the host math functions and text measurement. -/
theorem drawShape_endpoints_only :
    ∀ (trig : Trig) (measure : ℚ → Str → ℚ) (ty : AnnType) (color : Str)
      (w : ℚ) (fin : Bool) (txt : Option Str) (p0 pl : Pt) (mid : List Pt),
      (ty = AnnType.arrow ∨ ty = AnnType.rectangle ∨ ty = AnnType.highlight) →
      drawShape trig measure ty (p0 :: (mid ++ [pl])) color w fin txt =
        drawShape trig measure ty [p0, pl] color w fin txt := by
  intro trig measure ty color w fin txt p0 pl mid hty
  have hlen : ¬((p0 :: (mid ++ [pl])).length < 2) := by
    simp [List.length_append]
  have hlen2 : ¬(mid.length + 1 + 1 < 2) := by omega
  have hlast := lastPt_cons_append mid p0 pl
  rcases hty with rfl | rfl | rfl <;>
    simp [drawShape, hlen, hlen2, headPt, hlast, lastPt]

theorem drawShape_endpoints_witness :
    drawShape trigZero measureZero AnnType.arrow
        (⟨0, 0⟩ :: (demoMid ++ [⟨1, 1⟩])) defaultColor 3 true none =
      drawShape trigZero measureZero AnnType.arrow
        [⟨0, 0⟩, ⟨1, 1⟩] defaultColor 3 true none :=
  drawShape_endpoints_only trigZero measureZero AnnType.arrow defaultColor 3
    true none ⟨0, 0⟩ ⟨1, 1⟩ demoMid (Or.inl rfl)

/-!
## Annotation canvas (C9)
-/

theorem canvasStep_points_inv :
    ∀ (st : CanvasState) (e : CEvent),
      (st.isDrawing = true → st.currentPoints ≠ []) →
      ((canvasStep st e).isDrawing = true → (canvasStep st e).currentPoints ≠ []) := by
  intro st e h
  cases e with
  | setTool t => exact h
  | setColor c => exact h
  | setLineWidth w => exact h
  | mousedown p entry =>
    simp only [canvasStep]
    split
    · exact h
    · split
      · cases entry with
        | some s =>
          dsimp only
          split
          · intro _; simp
          · intro hfalse; simp at hfalse
        | none => intro hfalse; simp at hfalse
      · intro _; simp
  | mousemove p =>
    simp only [canvasStep]
    split
    · exact h
    · intro _; simp
  | mouseup p =>
    simp only [canvasStep]
    split
    · exact h
    · intro hfalse; simp at hfalse
  | undo => exact h
  | clear => exact h

theorem runCanvas_points_inv :
    ∀ (evs : List CEvent),
      (runCanvas evs).isDrawing = true → (runCanvas evs).currentPoints ≠ [] := by
  intro evs
  have init : (initCanvas).isDrawing = true → (initCanvas).currentPoints ≠ [] := by
    intro hfalse
    simp [initCanvas] at hfalse
  unfold runCanvas
  induction evs using List.reverseRecOn with
  | nil => exact init
  | append_singleton evs e ih =>
    rw [List.foldl_append]
    exact canvasStep_points_inv _ e ih

/-- C9: a gesture below the minimum for its kind commits nothing, and no
error is raised (every handler is a total function).  Concretely:
(a) a TextLabel gesture whose prompt yields only whitespace (an empty
trimmed text) leaves the committed shape log unchanged; and
(b) from every reachable canvas state, a gesture ended by `mouseup`
commits exactly one shape carrying at least two points — the `mousedown`
seeds one point and the `mouseup` appends one, so an Arrow, Rectangle or
Highlight gesture can never end with fewer than its minimum of two
points (the sub-minimum case is unsatisfiable, not an error). -/
theorem gesture_min_points :
    (∀ (st : CanvasState) (p : Pt) (s : Str),
      st.currentTool = Tool.text → trimJS s = [] →
      (canvasStep st (CEvent.mousedown p (some s))).annotations = st.annotations) ∧
    (∀ (evs : List CEvent) (p : Pt),
      (runCanvas evs).isDrawing = true →
      (runCanvas evs).currentTool ≠ Tool.pointer →
      ∃ a, (canvasStep (runCanvas evs) (CEvent.mouseup p)).annotations =
          (runCanvas evs).annotations ++ [a] ∧ 2 ≤ a.points.length) := by
  constructor
  · intro st p s htool htrim
    have hnp : st.currentTool ≠ Tool.pointer := by rw [htool]; decide
    simp [canvasStep, hnp, htool, htrim]
  · intro evs p hdraw hnp
    have hcp : (runCanvas evs).currentPoints ≠ [] := runCanvas_points_inv evs hdraw
    have hguard : ¬((runCanvas evs).isDrawing = false ∨
        (runCanvas evs).currentTool = Tool.pointer) := by
      rintro (hf | hp)
      · rw [hdraw] at hf; cases hf
      · exact hnp hp
    refine ⟨⟨(runCanvas evs).currentTool.toAnnType,
        (runCanvas evs).currentPoints ++ [p],
        (runCanvas evs).currentColor, (runCanvas evs).lineWidth, none⟩, ?_, ?_⟩
    · simp [canvasStep, hguard]
    · have : 1 ≤ (runCanvas evs).currentPoints.length := by
        cases hc : (runCanvas evs).currentPoints with
        | nil => exact absurd hc hcp
        | cons q qs => simp
      simp [List.length_append]
      omega

theorem gesture_min_points_witness :
    ((canvasStep demoTextState (CEvent.mousedown ⟨3, 4⟩ (some spaceStr))).annotations =
      demoTextState.annotations) ∧
    (∃ a, (canvasStep (runCanvas demoCanvasEvs) (CEvent.mouseup ⟨5, 6⟩)).annotations =
        (runCanvas demoCanvasEvs).annotations ++ [a] ∧ 2 ≤ a.points.length) :=
  ⟨gesture_min_points.1 demoTextState ⟨3, 4⟩ spaceStr rfl (by decide),
   gesture_min_points.2 demoCanvasEvs ⟨5, 6⟩ rfl (by decide)⟩

/-!
## `getAnnotations` aliasing (C10)
-/

theorem heap_getD_append_self : ∀ (h : List (List Annot)) (x : List Annot),
    (h ++ [x]).getD h.length [] = x := by
  intro h x
  induction h with
  | nil => rfl
  | cons y ys ih => simp [ih]

theorem heap_getD_append_lt : ∀ (h : List (List Annot)) (x : List Annot) (n : Nat),
    n < h.length → (h ++ [x]).getD n [] = h.getD n [] := by
  intro h
  induction h with
  | nil => intro x n hn; cases hn
  | cons y ys ih =>
    intro x n hn
    cases n with
    | zero => rfl
    | succ k =>
      have : k < ys.length := by simpa using hn
      simpa using ih x k this

theorem heap_set_append : ∀ (h : List (List Annot)) (x v : List Annot),
    (h ++ [x]).set h.length v = h ++ [v] := by
  intro h x v
  induction h with
  | nil => rfl
  | cons y ys ih => simp [ih]

/-- C10: `getAnnotations` returns a fresh copy of the committed shape
log: the returned array has the same contents as the internal log, and
arbitrarily mutating the returned array leaves the internal log — and
therefore the output of every subsequent `redraw`, `undo` or `toDataUrl`
(any function of the redraw trace) — unchanged. -/
theorem getAnnotations_fresh_copy :
    ∀ (h : ArrHeap) (annRef : Nat) (v : List Annot),
      annRef < h.length →
      (heapRead (getAnnotationsH h annRef).1 (getAnnotationsH h annRef).2 =
        heapRead h annRef) ∧
      (heapRead (heapWrite (getAnnotationsH h annRef).1
          (getAnnotationsH h annRef).2 v) annRef = heapRead h annRef) ∧
      (∀ (trig : Trig) (measure : ℚ → Str → ℚ) (w ht : ℚ)
          (encode : List DrawCmd → Str),
        encode (redrawModel trig measure w ht
            (heapRead (heapWrite (getAnnotationsH h annRef).1
              (getAnnotationsH h annRef).2 v) annRef)) =
          encode (redrawModel trig measure w ht (heapRead h annRef))) ∧
      (undoModel (heapRead (heapWrite (getAnnotationsH h annRef).1
          (getAnnotationsH h annRef).2 v) annRef) =
        undoModel (heapRead h annRef)) := by
  intro h annRef v hlt
  have hcopy : heapRead (getAnnotationsH h annRef).1 (getAnnotationsH h annRef).2 =
      heapRead h annRef := by
    unfold getAnnotationsH heapAlloc heapRead
    exact heap_getD_append_self h _
  have hwrite : heapRead (heapWrite (getAnnotationsH h annRef).1
      (getAnnotationsH h annRef).2 v) annRef = heapRead h annRef := by
    unfold getAnnotationsH heapAlloc heapWrite heapRead
    rw [heap_set_append]
    exact heap_getD_append_lt h v annRef hlt
  exact ⟨hcopy, hwrite, fun trig measure w ht encode => by rw [hwrite],
    by rw [hwrite]⟩

theorem getAnnotations_fresh_copy_witness :
    heapRead (heapWrite (getAnnotationsH demoHeap 0).1
        (getAnnotationsH demoHeap 0).2 []) 0 = heapRead demoHeap 0 :=
  (getAnnotations_fresh_copy demoHeap 0 [] (by decide)).2.1

/-!
## Store lemmas and the overlay turn loop (C2, C3, C4)
-/

theorem find_map_put : ∀ (s : Store) (c : Conversation),
    s.any (fun d => d.id == c.id) = true →
    (s.map (fun d => if d.id == c.id then c else d)).find?
      (fun d => d.id == c.id) = some c := by
  intro s c
  induction s with
  | nil => intro h; cases h
  | cons d tl ih =>
    intro h
    by_cases hd : (d.id == c.id) = true
    · rw [List.map_cons, if_pos hd, List.find?_cons_of_pos]
      simp
    · have htl : tl.any (fun x => x.id == c.id) = true := by
        rw [List.any_cons] at h
        rcases Bool.or_eq_true_iff.mp h with h1 | h1
        · exact absurd h1 hd
        · exact h1
      rw [List.map_cons, if_neg hd,
        @List.find?_cons_of_neg _ (fun x => x.id == c.id) d _ hd]
      exact ih htl

theorem storeGet_put_self : ∀ (s : Store) (c : Conversation),
    storeGet (storePut s c) c.id = some c := by
  intro s c
  unfold storeGet storePut
  by_cases hany : s.any (fun d => d.id == c.id) = true
  · rw [if_pos hany]
    exact find_map_put s c hany
  · rw [if_neg hany]
    rw [List.find?_append]
    have hnone : s.find? (fun d => d.id == c.id) = none := by
      rw [List.find?_eq_none]
      intro x hx hpx
      exact hany (List.any_eq_true.mpr ⟨x, hx, hpx⟩)
    simp [hnone]

theorem storeGet_some_id : ∀ (s : Store) (cid : Str) (c : Conversation),
    storeGet s cid = some c → c.id = cid := by
  intro s cid c h
  have h2 : s.find? (fun x => x.id == cid) = some c := h
  exact eq_of_beq (@List.find?_some _ (fun x => x.id == cid) c s h2)

theorem convAddMessage_id : ∀ (c : Conversation) (msg : Message) (now : Nat),
    (convAddMessage c msg now).id = c.id := by
  intro c msg now
  unfold convAddMessage
  dsimp only
  split <;> rfl

theorem convAddMessage_messages : ∀ (c : Conversation) (msg : Message) (now : Nat),
    (convAddMessage c msg now).messages = c.messages ++ [msg] := by
  intro c msg now
  exact (addMessage_title_updatedAt c msg now).2.1

theorem storeAddMessage_of_get : ∀ (s : Store) (cid : Str) (msg : Message)
    (now : Nat) (c0 : Conversation), storeGet s cid = some c0 →
    storeAddMessage s cid msg now =
      some (storePut s (convAddMessage c0 msg now), convAddMessage c0 msg now) := by
  intro s cid msg now c0 h
  unfold storeAddMessage
  rw [h]
  rfl

theorem storeGet_put_addMessage : ∀ (s : Store) (cid : Str) (msg : Message)
    (now : Nat) (c0 : Conversation), storeGet s cid = some c0 →
    storeGet (storePut s (convAddMessage c0 msg now)) cid =
      some (convAddMessage c0 msg now) := by
  intro s cid msg now c0 h
  have hid : (convAddMessage c0 msg now).id = cid := by
    rw [convAddMessage_id]
    exact storeGet_some_id s cid c0 h
  rw [← hid]
  exact storeGet_put_self s (convAddMessage c0 msg now)

theorem runCalls_store_extends :
    ∀ (calls : List (Str × Bool)) (cid : Str) (now : Nat) (ss : StreamState)
      (c0 : Conversation), storeGet ss.store cid = some c0 →
      ∃ c1 ext, storeGet (runCalls cid now ss calls).store cid = some c1 ∧
        c1.messages = c0.messages ++ ext := by
  intro calls
  induction calls with
  | nil =>
    intro cid now ss c0 h
    exact ⟨c0, [], h, by simp⟩
  | cons hd rest ih =>
    obtain ⟨chunk, done⟩ := hd
    intro cid now ss c0 h
    cases done with
    | false =>
      simp only [runCalls, if_neg (by simp : ¬(false = true))]
      exact ih cid now _ c0 h
    | true =>
      simp only [runCalls, if_pos rfl]
      rw [storeAddMessage_of_get ss.store cid _ now c0 h]
      have hget' := storeGet_put_addMessage ss.store cid
        { ss.aiMsg with content := ss.aiMsg.content ++ chunk } now c0 h
      obtain ⟨c2, ext2, hc2, hm2⟩ := ih cid now
        { store := storePut ss.store (convAddMessage c0
            { ss.aiMsg with content := ss.aiMsg.content ++ chunk } now)
          view := convAddMessage c0
            { ss.aiMsg with content := ss.aiMsg.content ++ chunk } now
          aliasLive := false
          aiMsg := { ss.aiMsg with content := ss.aiMsg.content ++ chunk }
          trace := ss.trace ++ [TurnEvent.storeAppend cid
            { ss.aiMsg with content := ss.aiMsg.content ++ chunk }] }
        (convAddMessage c0 { ss.aiMsg with content := ss.aiMsg.content ++ chunk } now)
        hget'
      refine ⟨c2, [{ ss.aiMsg with content := ss.aiMsg.content ++ chunk }] ++ ext2, hc2, ?_⟩
      rw [hm2, convAddMessage_messages]
      simp

theorem runCalls_store_extends2 :
    ∀ (calls : List (Str × Bool)) (cid : Str) (now : Nat) (stor : Store)
      (view : Conversation) (alive : Bool) (ai : Message)
      (tr : List TurnEvent) (c0 : Conversation),
      storeGet stor cid = some c0 →
      ∃ c1 ext,
        storeGet (runCalls cid now ⟨stor, view, alive, ai, tr⟩ calls).store
          cid = some c1 ∧ c1.messages = c0.messages ++ ext := by
  intro calls cid now stor view alive ai tr c0 h
  exact runCalls_store_extends calls cid now ⟨stor, view, alive, ai, tr⟩ c0 h

theorem runCalls_nonfinal :
    ∀ (calls : List (Str × Bool)) (cid : Str) (now : Nat) (ss : StreamState),
      calls.all (fun p => !p.2) = true →
      ss.aliasLive = true →
      ss.view.messages = ss.view.messages.dropLast ++ [ss.aiMsg] →
      runCalls cid now ss calls =
        { ss with
          view := { ss.view with messages := ss.view.messages.dropLast ++
            [{ ss.aiMsg with
               content := ss.aiMsg.content ++ (calls.map Prod.fst).flatten }] }
          aiMsg := { ss.aiMsg with
            content := ss.aiMsg.content ++ (calls.map Prod.fst).flatten } } := by
  intro calls
  induction calls with
  | nil =>
    intro cid now ss _ _ hmsgs
    show ss = _
    simp only [List.map_nil, List.flatten_nil, List.append_nil]
    rw [← hmsgs]
  | cons hd rest ih =>
    obtain ⟨chunk, done⟩ := hd
    intro cid now ss hall halive hmsgs
    rw [List.all_cons, Bool.and_eq_true] at hall
    obtain ⟨h1, h2⟩ := hall
    have hdone : done = false := by
      cases done
      · rfl
      · cases h1
    subst hdone
    have hm2 : (ss.view.messages.dropLast ++
        [{ ss.aiMsg with content := ss.aiMsg.content ++ chunk }]) =
        (ss.view.messages.dropLast ++
          [{ ss.aiMsg with content := ss.aiMsg.content ++ chunk }]).dropLast ++
          [{ ss.aiMsg with content := ss.aiMsg.content ++ chunk }] := by
      rw [List.dropLast_concat]
    simp only [runCalls, if_neg (by simp : ¬(false = true)), halive,
      eq_self_iff_true, if_true]
    rw [ih cid now
      { store := ss.store
        view := { ss.view with messages := ss.view.messages.dropLast ++
          [{ ss.aiMsg with content := ss.aiMsg.content ++ chunk }] }
        aliasLive := true
        aiMsg := { ss.aiMsg with content := ss.aiMsg.content ++ chunk }
        trace := ss.trace }
      h2 rfl hm2]
    simp only [List.dropLast_concat, List.map_cons, List.flatten_cons,
      List.append_assoc]

theorem sendMessage_eq :
    ∀ (st : OverlayState) (store : Store) (text : Str) (u1 u2 : Str)
      (now : Nat) (outcome : SendOutcome) (convo : Conversation)
      (settings : AppSettings) (c0 : Conversation),
      st.activeConvo = some convo → st.settings = some settings →
      ¬((settings.providers convo.provider).apiKey = [] ∧
        convo.provider ≠ AIProviderType.ollama) →
      storeGet store convo.id = some c0 →
      sendMessage st store text u1 u2 now outcome =
        (let config := settings.providers convo.provider
         let annotatedUrl :=
           match st.canvas with
           | some cv => if cv.dataUrl = [] then st.currentScreenshot else cv.dataUrl
           | none => st.currentScreenshot
         let shot : Screenshot :=
           { dataUrl := st.currentScreenshot
             annotations := match st.canvas with
               | some cv => cv.annotations
               | none => []
             annotatedDataUrl := some annotatedUrl
             timestamp := now }
         let userMsg : Message :=
           { id := u1, role := Role.user
             content := if text = [] then helpFallback else text
             screenshot := some shot, timestamp := now
             provider := some convo.provider, model := some config.model }
         let c1 := convAddMessage c0 userMsg now
         let aiMsg : Message :=
           { id := u2, role := Role.assistant, content := []
             screenshot := none, timestamp := now
             provider := some convo.provider, model := some config.model }
         let ss0 : StreamState :=
           { store := storePut store c1
             view := { c1 with messages := c1.messages ++ [aiMsg] }
             aliasLive := true, aiMsg := aiMsg, trace := [] }
         match outcome with
         | SendOutcome.ok calls =>
           let ss := runCalls convo.id now ss0 calls
           { store := ss.store, convo := some ss.view,
             trace := [TurnEvent.storeAppend convo.id userMsg,
               TurnEvent.networkCall] ++ ss.trace }
         | SendOutcome.err calls m =>
           let ss := runCalls convo.id now ss0 calls
           let errAi := { ss.aiMsg with
             content := errPrefix ++ (if m = [] then couldNotReach else m) }
           let view1 :=
             if ss.aliasLive then
               { ss.view with messages := ss.view.messages.dropLast ++ [errAi] }
             else ss.view
           { store := ss.store, convo := some view1,
             trace := [TurnEvent.storeAppend convo.id userMsg,
               TurnEvent.networkCall] ++ ss.trace }) := by
  intro st store text u1 u2 now outcome convo settings c0 hconv hsettings hcfg hget
  unfold sendMessage
  rw [hconv, hsettings]
  dsimp only
  rw [if_neg hcfg]
  rw [storeAddMessage_of_get store convo.id _ now c0 hget]

/-- C2 (counterexample): the overlay's `sendMessage` never consults
`enabled`.  With the active provider disabled (`enabled = false`) but an
API key present, a turn performs a network call; and with the API key
missing, the turn produces only a DOM-level error bubble — nothing is
appended to the conversation or to the store — so in neither
configuration-failure case is exactly one assistant message appended
without a network call. -/
theorem overlay_send_enabled_counter :
    (demoCfg.enabled = false ∧
      TurnEvent.networkCall ∈ (sendMessage demoState demoStore demoText demoU1
        demoU2 5 (SendOutcome.ok [(demoHel, false), ([], true)])).trace) ∧
    ((sendMessage demoStateNoKey demoStore demoText demoU1 demoU2 5
        (SendOutcome.ok [(demoHel, false), ([], true)])).store = demoStore ∧
      (sendMessage demoStateNoKey demoStore demoText demoU1 demoU2 5
        (SendOutcome.ok [(demoHel, false), ([], true)])).trace =
        [TurnEvent.domError apiKeyMissingMsg] ∧
      (sendMessage demoStateNoKey demoStore demoText demoU1 demoU2 5
        (SendOutcome.ok [(demoHel, false), ([], true)])).convo =
        some demoConvo) := by
  refine ⟨⟨rfl, ?_⟩, ?_, ?_, ?_⟩ <;> decide

/-- C2 (amended): when the active provider's `apiKey` is empty and the
provider is not ollama, `sendMessage` performs no network call and
appends nothing to the conversation or the store — the problem surfaces
only as a DOM-level error bubble (`showError`), not as an assistant
message; the `enabled` flag is never consulted, so whenever the key is
present (or the provider is ollama) the network call is issued even for a
disabled provider. -/
theorem overlay_send_config_amended :
    (∀ (st : OverlayState) (store : Store) (text u1 u2 : Str) (now : Nat)
      (outcome : SendOutcome) (convo : Conversation) (settings : AppSettings),
      st.activeConvo = some convo → st.settings = some settings →
      (settings.providers convo.provider).apiKey = [] →
      convo.provider ≠ AIProviderType.ollama →
      sendMessage st store text u1 u2 now outcome =
        { store := store, convo := some convo,
          trace := [TurnEvent.domError apiKeyMissingMsg] }) ∧
    (∀ (st : OverlayState) (store : Store) (text u1 u2 : Str) (now : Nat)
      (outcome : SendOutcome) (convo : Conversation) (settings : AppSettings)
      (c0 : Conversation),
      st.activeConvo = some convo → st.settings = some settings →
      ¬((settings.providers convo.provider).apiKey = [] ∧
        convo.provider ≠ AIProviderType.ollama) →
      storeGet store convo.id = some c0 →
      TurnEvent.networkCall ∈ (sendMessage st store text u1 u2 now outcome).trace) := by
  constructor
  · intro st store text u1 u2 now outcome convo settings hconv hsettings hkey hprov
    unfold sendMessage
    rw [hconv, hsettings]
    dsimp only
    rw [if_pos ⟨hkey, hprov⟩]
  · intro st store text u1 u2 now outcome convo settings c0 hconv hsettings hcfg hget
    rw [sendMessage_eq st store text u1 u2 now outcome convo settings c0
      hconv hsettings hcfg hget]
    cases outcome with
    | ok calls => simp
    | err calls m => simp

theorem overlay_send_config_amended_witness :
    (sendMessage demoStateNoKey demoStore demoText demoU1 demoU2 5
        (SendOutcome.ok []) =
      { store := demoStore, convo := some demoConvo,
        trace := [TurnEvent.domError apiKeyMissingMsg] }) ∧
    TurnEvent.networkCall ∈ (sendMessage demoState demoStore demoText demoU1
      demoU2 5 (SendOutcome.ok [])).trace :=
  ⟨overlay_send_config_amended.1 demoStateNoKey demoStore demoText demoU1
      demoU2 5 (SendOutcome.ok []) demoConvo demoSettingsNoKey rfl rfl rfl
      (by decide),
   overlay_send_config_amended.2 demoState demoStore demoText demoU1 demoU2 5
      (SendOutcome.ok []) demoConvo demoSettings demoConvo rfl rfl (by decide)
      (by decide)⟩

/-- C3 (counterexample): a transport error mid-stream after `"Hel"` has
streamed.  The displayed conversation ends with the single
error-describing assistant message, but the store records only the user
message: the error message is never persisted, so the conversation as
recorded in the store does not show the failure as a turn. -/
theorem overlay_error_not_persisted_counter :
    ((sendMessage demoState demoStore demoText demoU1 demoU2 5
        (SendOutcome.err [(demoHel, false)] netDown)).convo.map
          (fun v => v.messages.map (fun x => x.role)) =
      some [Role.user, Role.assistant]) ∧
    ((sendMessage demoState demoStore demoText demoU1 demoU2 5
        (SendOutcome.err [(demoHel, false)] netDown)).convo.map
          (fun v => v.messages.map (fun x => x.content)) =
      some [demoText, errPrefix ++ netDown]) ∧
    ((storeGet (sendMessage demoState demoStore demoText demoU1 demoU2 5
        (SendOutcome.err [(demoHel, false)] netDown)).store demoConvo.id).map
          (fun c => c.messages.map (fun x => x.role)) =
      some [Role.user]) := by
  refine ⟨?_, ?_, ?_⟩ <;> decide

/-- C3 (amended): on a transport or decode error mid-stream (the
connectors reject only before the terminal callback, so the streamed
calls are all non-final), the text already streamed into the assistant
buffer is discarded and replaced by a single error-describing assistant
message in the displayed conversation — but that error message is NOT
persisted: the store still holds the conversation exactly as it was
after the user message was appended, its last recorded message being the
user's. -/
theorem overlay_stream_error_amended :
    ∀ (st : OverlayState) (store : Store) (text u1 u2 : Str) (now : Nat)
      (pre : List (Str × Bool)) (m : Str) (convo : Conversation)
      (settings : AppSettings) (c0 : Conversation),
      st.activeConvo = some convo → st.settings = some settings →
      ¬((settings.providers convo.provider).apiKey = [] ∧
        convo.provider ≠ AIProviderType.ollama) →
      storeGet store convo.id = some c0 →
      pre.all (fun p => !p.2) = true →
      ∃ v ai c1,
        (sendMessage st store text u1 u2 now (SendOutcome.err pre m)).convo =
          some v ∧
        v.messages.getLast? = some ai ∧
        ai.role = Role.assistant ∧
        ai.content = errPrefix ++ (if m = [] then couldNotReach else m) ∧
        storeGet (sendMessage st store text u1 u2 now
          (SendOutcome.err pre m)).store convo.id = some c1 ∧
        c1.messages = v.messages.dropLast ∧
        c1.messages.getLast?.map (fun x => x.role) = some Role.user := by
  intro st store text u1 u2 now pre m convo settings c0 hconv hsettings hcfg
    hget hall
  rw [sendMessage_eq st store text u1 u2 now (SendOutcome.err pre m) convo
    settings c0 hconv hsettings hcfg hget]
  dsimp only
  rw [runCalls_nonfinal pre convo.id now _ hall rfl (by
    dsimp only
    rw [List.dropLast_concat])]
  dsimp only
  rw [List.dropLast_concat]
  refine ⟨_, _, convAddMessage c0
    { id := u1, role := Role.user
      content := if text = [] then helpFallback else text
      screenshot := some
        { dataUrl := st.currentScreenshot
          annotations := match st.canvas with
            | some cv => cv.annotations
            | none => []
          annotatedDataUrl := some (match st.canvas with
            | some cv => if cv.dataUrl = [] then st.currentScreenshot else cv.dataUrl
            | none => st.currentScreenshot)
          timestamp := now }
      timestamp := now
      provider := some convo.provider
      model := some (settings.providers convo.provider).model } now,
    rfl, List.getLast?_concat _, ?_, ?_,
    storeGet_put_addMessage store convo.id _ now c0 hget, ?_, ?_⟩
  · rfl
  · rfl
  · simp
  · rw [convAddMessage_messages]
    rw [List.getLast?_concat]
    rfl

theorem overlay_stream_error_amended_witness :
    ∃ v ai c1,
      (sendMessage demoState demoStore demoText demoU1 demoU2 5
        (SendOutcome.err [(demoHel, false)] netDown)).convo = some v ∧
      v.messages.getLast? = some ai ∧
      ai.role = Role.assistant ∧
      ai.content = errPrefix ++ (if netDown = [] then couldNotReach else netDown) ∧
      storeGet (sendMessage demoState demoStore demoText demoU1 demoU2 5
        (SendOutcome.err [(demoHel, false)] netDown)).store demoConvo.id =
        some c1 ∧
      c1.messages = v.messages.dropLast ∧
      c1.messages.getLast?.map (fun x => x.role) = some Role.user :=
  overlay_stream_error_amended demoState demoStore demoText demoU1 demoU2 5
    [(demoHel, false)] netDown demoConvo demoSettings demoConvo rfl rfl
    (by decide) (by decide) (by decide)

/-- C4 (counterexample): a configuration-error turn.  The composed text
is dropped before the user message is even constructed: nothing is
appended to the store (which still holds the empty conversation) and the
only effect is the DOM error bubble — the user message does not remain
in the persisted conversation on this error path. -/
theorem overlay_config_path_loses_input :
    (sendMessage demoStateNoKey demoStore demoText demoU1 demoU2 5
        (SendOutcome.ok [])).store = demoStore ∧
    (sendMessage demoStateNoKey demoStore demoText demoU1 demoU2 5
        (SendOutcome.ok [])).trace = [TurnEvent.domError apiKeyMissingMsg] ∧
    (storeGet demoStore demoConvo.id).map (fun c => c.messages) = some [] := by
  refine ⟨?_, ?_, ?_⟩ <;> decide

/-- C4 (amended): on every turn that passes the configuration check, the
just-composed user message is appended to the conversation and persisted
to the store before the network call is issued (the first two trace
events are its store append followed by the network call), and whatever
the outcome of the call — resolution or transport/decode rejection — the
user message remains in the persisted conversation.  On the
configuration-error path, however, the turn aborts before the user
message is constructed, so nothing is persisted there. -/
theorem overlay_user_msg_persisted_first :
    ∀ (st : OverlayState) (store : Store) (text u1 u2 : Str) (now : Nat)
      (outcome : SendOutcome) (convo : Conversation) (settings : AppSettings)
      (c0 : Conversation),
      st.activeConvo = some convo → st.settings = some settings →
      ¬((settings.providers convo.provider).apiKey = [] ∧
        convo.provider ≠ AIProviderType.ollama) →
      storeGet store convo.id = some c0 →
      ∃ userMsg : Message,
        userMsg.role = Role.user ∧
        userMsg.content = (if text = [] then helpFallback else text) ∧
        (sendMessage st store text u1 u2 now outcome).trace.take 2 =
          [TurnEvent.storeAppend convo.id userMsg, TurnEvent.networkCall] ∧
        ∃ c1, storeGet (sendMessage st store text u1 u2 now outcome).store
            convo.id = some c1 ∧ userMsg ∈ c1.messages := by
  intro st store text u1 u2 now outcome convo settings c0 hconv hsettings
    hcfg hget
  rw [sendMessage_eq st store text u1 u2 now outcome convo settings c0
    hconv hsettings hcfg hget]
  dsimp only
  cases outcome with
  | ok calls =>
    refine ⟨{ id := u1
              role := Role.user
              content := if text = [] then helpFallback else text
              screenshot := some
                { dataUrl := st.currentScreenshot
                  annotations := match st.canvas with
                    | some cv => cv.annotations
                    | none => []
                  annotatedDataUrl := some (match st.canvas with
                    | some cv => if cv.dataUrl = [] then st.currentScreenshot else cv.dataUrl
                    | none => st.currentScreenshot)
                  timestamp := now }
              timestamp := now
              provider := some convo.provider
              model := some (settings.providers convo.provider).model },
      rfl, rfl, by simp, ?_⟩
    obtain ⟨c1, ext, hc1, hm⟩ := runCalls_store_extends2 calls convo.id now
      _ _ _ _ _ _ (storeGet_put_addMessage store convo.id _ now c0 hget)
    refine ⟨c1, hc1, ?_⟩
    rw [hm, convAddMessage_messages]
    simp
  | err calls m =>
    refine ⟨{ id := u1
              role := Role.user
              content := if text = [] then helpFallback else text
              screenshot := some
                { dataUrl := st.currentScreenshot
                  annotations := match st.canvas with
                    | some cv => cv.annotations
                    | none => []
                  annotatedDataUrl := some (match st.canvas with
                    | some cv => if cv.dataUrl = [] then st.currentScreenshot else cv.dataUrl
                    | none => st.currentScreenshot)
                  timestamp := now }
              timestamp := now
              provider := some convo.provider
              model := some (settings.providers convo.provider).model },
      rfl, rfl, by simp, ?_⟩
    obtain ⟨c1, ext, hc1, hm⟩ := runCalls_store_extends2 calls convo.id now
      _ _ _ _ _ _ (storeGet_put_addMessage store convo.id _ now c0 hget)
    refine ⟨c1, hc1, ?_⟩
    rw [hm, convAddMessage_messages]
    simp

theorem overlay_user_msg_persisted_first_witness :
    ∃ userMsg : Message,
      userMsg.role = Role.user ∧
      userMsg.content = (if demoText = [] then helpFallback else demoText) ∧
      (sendMessage demoState demoStore demoText demoU1 demoU2 5
        (SendOutcome.err [(demoHel, false)] netDown)).trace.take 2 =
        [TurnEvent.storeAppend demoConvo.id userMsg, TurnEvent.networkCall] ∧
      ∃ c1, storeGet (sendMessage demoState demoStore demoText demoU1 demoU2 5
          (SendOutcome.err [(demoHel, false)] netDown)).store demoConvo.id =
          some c1 ∧ userMsg ∈ c1.messages :=
  overlay_user_msg_persisted_first demoState demoStore demoText demoU1 demoU2 5
    (SendOutcome.err [(demoHel, false)] netDown) demoConvo demoSettings
    demoConvo rfl rfl (by decide) (by decide)
